import Mathlib

/-!
Verification of the documentation-markup extraction engine of
`source/slang/slang-doc-extractor.cpp` (the `DocMarkupExtractor` class and
its helpers), as a shallow embedding in Lean 4.

Conventions of the embedding:
* C++ `Index` (a signed 64-bit integer) is modelled as `Int`; list positions
  are converted with `Int.toNat` at the point of access, mirroring the
  unchecked `operator[]` of the source.
* Raw string slices (`UnownedStringSlice`) are modelled as `List Char`.
* `SlangResult`-returning functions that can only produce `SLANG_OK` or
  `SLANG_E_NOT_FOUND` are modelled with `Option`; a `none` from an operation
  whose C++ counterpart is undefined behaviour (an out-of-bounds table
  access) aborts the surrounding computation, mirroring the fact that the
  C++ has no defined result there.
* Entities that live in headers or collaborator modules outside the
  excerpt (`SourceView`/`SourceFile` offset and line services, the lexer,
  the enumerations of `slang-doc-extractor.h`) are modelled from the spec;
  each such definition says so in its doc comment.
* Loops are modelled by structural recursion on a fuel argument that is
  always instantiated strictly above the loop's iteration bound, so every
  definition is executable and every concrete run can be settled by `decide`.
-/

namespace SlangDoc

/-- Token kinds used by the extractor.  Modelled from the spec: the token
type tag of the lexer collaborator (block/line comments, the three bracket
kinds, angle brackets, comma, semicolon, everything else). -/
inductive TokenType where
  | blockComment
  | lineComment
  | lBrace
  | rBrace
  | lBracket
  | rBracket
  | lParent
  | rParent
  | opLess
  | opGreater
  | comma
  | semicolon
  | other
  deriving DecidableEq, Repr

/-- A lexical token.  Modelled from the spec: the lexer collaborator
produces tokens with a type tag, raw content (for comments the exact
source bytes including decoration), a raw source location, and a
character count. -/
structure Token where
  type : TokenType
  content : List Char
  loc : Int
  charsCount : Int
  deriving DecidableEq, Repr

instance : Inhabited Token := ⟨⟨TokenType.other, [], 0, 0⟩⟩

/-- The markup dialects.  Modelled from the spec: enumeration
`DocMarkupExtractor::MarkupType` of `slang-doc-extractor.h`. -/
inductive MarkupType where
  | none
  | blockBefore
  | blockAfter
  | lineBangBefore
  | lineSlashBefore
  | lineBangAfter
  | lineSlashAfter
  deriving DecidableEq, Repr

/-- Markup flags.  Modelled from the spec: the flag set
`DocMarkupExtractor::MarkupFlags` (before/after directionality,
block vs. multi-token), represented as a record of booleans instead of a
bit mask. -/
structure MarkupFlags where
  isBefore : Bool
  isAfter : Bool
  isBlock : Bool
  isMultiToken : Bool
  deriving DecidableEq, Repr

/-- Search locations.  Modelled from the spec: enumeration
`DocMarkupExtractor::Location` of `slang-doc-extractor.h`. -/
inductive Location where
  | before
  | afterParam
  | afterEnumCase
  | afterGenericParam
  | afterSemicolon
  deriving DecidableEq, Repr

/-- Modelled from the spec: `isBefore(Location)` — only the `Before`
location anchors before its target. -/
def Location.isBefore : Location → Bool
  | Location.before => true
  | _ => false

/-- Modelled from the spec: `isAfter(Location)` — every `After*` location
anchors after its target. -/
def Location.isAfter (l : Location) : Bool := !l.isBefore

/-- Modelled from the spec: `isBefore(MarkupType)` — the `*Before`
dialects anchor before their target. -/
def MarkupType.isBefore : MarkupType → Bool
  | MarkupType.blockBefore | MarkupType.lineBangBefore | MarkupType.lineSlashBefore => true
  | _ => false

/-- Modelled from the spec: `isAfter(MarkupType)` — the `*After` dialects
anchor after their target. -/
def MarkupType.isAfter : MarkupType → Bool
  | MarkupType.blockAfter | MarkupType.lineBangAfter | MarkupType.lineSlashAfter => true
  | _ => false

/-- Port of `DocMarkupExtractor::getFlags` (slang-doc-extractor.cpp:100). -/
def getFlags : MarkupType → MarkupFlags
  | MarkupType.none => ⟨false, false, false, false⟩
  | MarkupType.blockBefore => ⟨true, false, true, false⟩
  | MarkupType.blockAfter => ⟨false, true, true, false⟩
  | MarkupType.lineBangBefore => ⟨true, false, false, true⟩
  | MarkupType.lineSlashBefore => ⟨true, false, false, true⟩
  | MarkupType.lineBangAfter => ⟨false, true, false, true⟩
  | MarkupType.lineSlashAfter => ⟨false, true, false, true⟩

/-- Port of `DocMarkupExtractor::findMarkupType`
(slang-doc-extractor.cpp:117): classify one token into a markup dialect by
its type tag and leading characters. -/
def findMarkupType (tok : Token) : MarkupType :=
  match tok.type with
  | TokenType.blockComment =>
    if tok.content.length ≥ 3 ∧ (tok.content.getD 2 ' ' = '!' ∨ tok.content.getD 2 ' ' = '*') then
      if tok.content.length ≥ 4 ∧ tok.content.getD 3 ' ' = '<' then MarkupType.blockAfter
      else MarkupType.blockBefore
    else MarkupType.none
  | TokenType.lineComment =>
    if tok.content.length ≥ 3 then
      if tok.content.getD 2 ' ' = '!' then
        if tok.content.length ≥ 4 ∧ tok.content.getD 3 ' ' = '<' then MarkupType.lineBangAfter
        else MarkupType.lineBangBefore
      else if tok.content.getD 2 ' ' = '/' then
        if tok.content.length ≥ 4 ∧ tok.content.getD 3 ' ' = '<' then MarkupType.lineSlashAfter
        else MarkupType.lineSlashBefore
      else MarkupType.none
    else MarkupType.none
  | _ => MarkupType.none

/-- The classifier as the spec's §4.1 words it: "a block comment whose
third character is `!` or `*` is markup; if its fourth character is
additionally `<`, it is an after-dialect, else before-dialect.  A line
comment whose third character is `!` is bang-dialect; third character `/`
is slash-dialect; in both cases a fourth character `<` makes it after,
otherwise before.  Any other comment, or any non-comment token,
classifies as none."  (A "third character" exists only when the content
has at least three characters.) -/
def markupTypeSpec (tok : Token) : MarkupType :=
  let third := tok.content.getD 2 ' '
  let hasThird := tok.content.length ≥ 3
  let afterMark := tok.content.length ≥ 4 ∧ tok.content.getD 3 ' ' = '<'
  match tok.type with
  | TokenType.blockComment =>
    if hasThird ∧ (third = '!' ∨ third = '*') then
      if afterMark then MarkupType.blockAfter else MarkupType.blockBefore
    else MarkupType.none
  | TokenType.lineComment =>
    if hasThird ∧ third = '!' then
      if afterMark then MarkupType.lineBangAfter else MarkupType.lineBangBefore
    else if hasThird ∧ third = '/' then
      if afterMark then MarkupType.lineSlashAfter else MarkupType.lineSlashBefore
    else MarkupType.none
  | _ => MarkupType.none

/-- `List.isPrefixOf` specialised to a string-literal pattern, modelling
`UnownedStringSlice::startsWith`. -/
def startsWithLit (c : List Char) (p : String) : Bool := List.isPrefixOf p.toList c

/-- Port of `DocMarkupExtractor::removeStart` (slang-doc-extractor.cpp:21):
strip the dialect's decoration from the front of a comment. -/
def removeStart (ty : MarkupType) (comment : List Char) : List Char :=
  match ty with
  | MarkupType.blockBefore =>
    if startsWithLit comment ("/**") ∨ startsWithLit comment ("/*!") then comment.drop 3 else comment
  | MarkupType.blockAfter =>
    if startsWithLit comment ("/**<") ∨ startsWithLit comment ("/*!<") then comment.drop 4 else comment
  | MarkupType.lineBangBefore =>
    if startsWithLit comment ("//!") then comment.drop 3 else comment
  | MarkupType.lineSlashBefore =>
    if startsWithLit comment ("///") then comment.drop 3 else comment
  | MarkupType.lineBangAfter =>
    if startsWithLit comment ("//!<") then comment.drop 4 else comment
  | MarkupType.lineSlashAfter =>
    if startsWithLit comment ("///<") then comment.drop 4 else comment
  | MarkupType.none => comment

/-- Port of `_calcWhitespaceIndent` (slang-doc-extractor.cpp:151): the
number of leading space characters (tabs deliberately not counted, as in
the source). -/
def _calcWhitespaceIndent (line : List Char) : Int :=
  ((line.takeWhile (fun c => c = ' ')).length : Int)

/-- Port of `_calcIndent` (slang-doc-extractor.cpp:160): the byte length
of a slice, used for the prefix preceding a block comment on its line. -/
def _calcIndent (line : List Char) : Int := (line.length : Int)

/-- Port of `_appendUnindenttedLine` (slang-doc-extractor.cpp:166): strip
the line's leading-space indent, clamped to `maxIndent` when that is
non-negative. -/
def _appendUnindenttedLine (line : List Char) (maxIndent : Int) : List Char :=
  let indent := _calcWhitespaceIndent line
  let indent := if maxIndent ≥ 0 then (if indent > maxIndent then maxIndent else indent) else indent
  line.drop indent.toNat

/-- Modelled from the spec: `StringUtil::calcLines` splits raw text into
its lines at newline characters. -/
def calcLines : List Char → List (List Char)
  | [] => [[]]
  | c :: rest =>
    if c = '\n' then [] :: calcLines rest
    else
      match calcLines rest with
      | [] => [[c]]
      | l :: ls => (c :: l) :: ls

/-- Horizontal whitespace, as trimmed by `UnownedStringSlice::trim`
(modelled from the spec's whitespace handling). -/
def isHorizontalSpace (c : Char) : Bool := c = ' ' ∨ c = '\t'

/-- Modelled from the spec: `UnownedStringSlice::trim` removes leading and
trailing horizontal whitespace. -/
def trim (c : List Char) : List Char :=
  ((c.dropWhile isHorizontalSpace).reverse.dropWhile isHorizontalSpace).reverse

/-- One iteration of the block-comment line loop of
`DocMarkupExtractor::_extractMarkup` (slang-doc-extractor.cpp:213-255):
strip the decoration from line 0, the trailing two characters (`*/`) from
the final line, unindent interior lines by at most `col`, and drop an
all-whitespace first or last line; `none` means the line produces no
output. -/
def blockLine (ty : MarkupType) (col : Int) (n : Nat) (i : Nat) (line : List Char) : Option (List Char) :=
  let line := if i = 0 then removeStart ty line else line
  let line := if i = n - 1 then line.take (line.length - 2) else line
  let uline := if i > 0 then _appendUnindenttedLine line col else line
  if (i = n - 1 ∨ i = 0) ∧ (trim uline).length = 0 then none
  else some (uline ++ ['\n'])

/-- Port of the block-dialect branch of `DocMarkupExtractor::_extractMarkup`
(slang-doc-extractor.cpp:190-257).  `col` is the byte distance from the
start of the comment's source line to the comment token (the source
computes it with `_calcIndent` over that prefix slice; the line returned
by `getLineContainingOffset` always contains the token's first byte, so
the `isMemoryContained` test of line 220 holds and `maxIndent` is `col`). -/
def extractMarkupBlock (ty : MarkupType) (content : List Char) (col : Int) : List Char :=
  let lines := calcLines content
  let n := lines.length
  ((List.range n).filterMap (fun i => blockLine ty col n i (lines.getD i []))).flatten

/-- Port of the line-dialect branch of `DocMarkupExtractor::_extractMarkup`
(slang-doc-extractor.cpp:259-302) over the half-open token range
`[s, e)`: strip each token's decoration, drop an all-whitespace first or
last line, then unindent every surviving line by the minimum indent and
join with newline terminators.  The source returns `SLANG_OK` with empty
output when no lines survive. -/
def extractMarkupLineRun (ty : MarkupType) (toks : List Token) (s e : Nat) : List Char :=
  let lines := (List.range (e - s)).filterMap (fun k =>
    let i := s + k
    let line := removeStart ty (toks.getD i default).content
    if (i = s ∨ i = e - 1) ∧ (trim line).length = 0 then none else some line)
  if lines.isEmpty then []
  else
    let minIndent := lines.foldl
      (fun m l => let ind := _calcWhitespaceIndent l; if ind < m then ind else m) 2147483647
    (lines.map (fun l => _appendUnindenttedLine l minIndent ++ ['\n'])).flatten

/-- The result of one step of the boundary scan of
`DocMarkupExtractor::_findStartIndex`: accept an index, fail the scan, or
continue with an updated open-delimiter count. -/
inductive ScanStep where
  | accept (index : Int)
  | fail
  | next (openCount : Int)
  deriving DecidableEq, Repr

/-- One iteration of the token switch of `DocMarkupExtractor::_findStartIndex`
(slang-doc-extractor.cpp:319-423), for the token at index `i` with the
current open-delimiter count. -/
def scanStep (location : Location) (openCount : Int) (tok : Token) (i : Int) : ScanStep :=
  let direction : Int := if location.isBefore then -1 else 1
  match tok.type with
  | TokenType.lBrace | TokenType.lBracket | TokenType.lParent | TokenType.opLess =>
    let oc := openCount + direction
    if oc < 0 then ScanStep.fail else ScanStep.next oc
  | TokenType.rBracket =>
    let oc := openCount - direction
    if oc < 0 then ScanStep.fail else ScanStep.next oc
  | TokenType.opGreater =>
    if location = Location.afterGenericParam ∧ openCount = 0 then ScanStep.accept (i + 1)
    else
      let oc := openCount - direction
      if oc < 0 then ScanStep.fail else ScanStep.next oc
  | TokenType.rParent =>
    if openCount = 0 ∧ location = Location.afterParam then ScanStep.accept (i + 1)
    else
      let oc := openCount - direction
      if oc < 0 then ScanStep.fail else ScanStep.next oc
  | TokenType.rBrace =>
    if location = Location.before ∨ location = Location.afterEnumCase then ScanStep.fail
    else ScanStep.next openCount
  | TokenType.blockComment | TokenType.lineComment =>
    if openCount = 0 then
      let markupType := findMarkupType tok
      if location.isBefore ∧ markupType.isBefore then ScanStep.accept i
      else if location.isAfter ∧ markupType.isAfter then ScanStep.accept i
      else ScanStep.next openCount
    else ScanStep.next openCount
  | TokenType.comma =>
    if openCount = 0 then
      if location = Location.afterParam ∨ location = Location.afterEnumCase ∨
          location = Location.afterGenericParam then
        ScanStep.accept (i + 1)
      else if location = Location.before then ScanStep.fail
      else ScanStep.next openCount
    else ScanStep.next openCount
  | TokenType.semicolon =>
    if location = Location.before then ScanStep.fail
    else if openCount = 0 ∧ location = Location.afterSemicolon then ScanStep.accept (i + 1)
    else ScanStep.next openCount
  | TokenType.other => ScanStep.next openCount

/-- The scanning loop of `_findStartIndex`, by step count (`fuel` always
strictly exceeds the possible number of iterations, which is bounded by
the token count since the index moves monotonically until it leaves the
stream). -/
def findStartLoop (toks : List Token) (location : Location) (direction : Int) :
    Nat → Int → Int → Int
  | 0, _, _ => -1
  | fuel + 1, openCount, i =>
    if 0 ≤ i ∧ i < (toks.length : Int) then
      match scanStep location openCount (toks.getD i.toNat default) i with
      | ScanStep.accept r => r
      | ScanStep.fail => -1
      | ScanStep.next oc => findStartLoop toks location direction fuel oc (i + direction)
    else -1

/-- Port of `DocMarkupExtractor::_findStartIndex`
(slang-doc-extractor.cpp:309): scan outward from the anchor token in the
direction determined by the location until a step accepts or fails;
`-1` when the scan leaves the stream. -/
def _findStartIndex (toks : List Token) (location : Location) (tokIndex : Int) : Int :=
  let direction : Int := if location.isBefore then -1 else 1
  findStartLoop toks location direction (toks.length + 1) 0 tokIndex

/-- Modelled from the spec: the source-view/source-file collaborator of §6.
A view covers the raw-location range `[rangeBegin, rangeEnd)`; the
underlying file (identified across views by `fileId`) exposes its
line-break offsets, an offset-to-line-index service `lineOf`, and the
start offset `lineStartOf` of the line containing an offset; `tokens` is
the comment-retaining lexer collaborator's output for the view. -/
structure SourceModel where
  fileId : Nat
  rangeBegin : Int
  rangeEnd : Int
  lineBreaks : List Int
  lineOf : Int → Int
  lineStartOf : Int → Int
  tokens : List Token

/-- The concrete line service for a file with the given line-break
offsets: an offset's line index is the number of line breaks strictly
below it. -/
def mkLineOf (breaks : List Int) (o : Int) : Int :=
  ((breaks.filter (fun b => b < o)).length : Int)

/-- The concrete line-start service: one past the last line break
strictly below the offset (0 for the first line). -/
def mkLineStartOf (breaks : List Int) (o : Int) : Int :=
  ((breaks.filter (fun b => b < o)).foldl max (-1)) + 1

/-- Build the concrete source model of one file. -/
def mkSource (fid : Nat) (rb re : Int) (breaks : List Int) (toks : List Token) : SourceModel :=
  ⟨fid, rb, re, breaks, mkLineOf breaks, mkLineStartOf breaks, toks⟩

/-- Port of `DocMarkupExtractor::_isTokenOnLineIndex`
(slang-doc-extractor.cpp:429); the `isOffsetOnLine` collaborator is
modelled from the spec as equality of the offset's line index with the
queried line index. -/
def _isTokenOnLineIndex (sf : SourceModel) (ty : MarkupType) (tok : Token) (lineIndex : Int) : Bool :=
  let offset := tok.loc - sf.rangeBegin
  if (getFlags ty).isBlock then
    sf.lineOf offset = lineIndex ∨ sf.lineOf (offset + tok.charsCount) = lineIndex
  else
    sf.lineOf offset = lineIndex

/-- Result of locating markup: dialect, the location that matched, and a
half-open token index range (the source's `IndexRange`). -/
structure FoundMarkup where
  type : MarkupType
  location : Location
  rangeStart : Int
  rangeStop : Int
  deriving DecidableEq, Repr

/-- The multi-token span-extension loop of the single-location
`DocMarkupExtractor::_findMarkup` (slang-doc-extractor.cpp:506-527):
advance `endIndex` and the expected line index by the search direction
until the stream ends, the token's dialect differs, or the
`_isTokenOnLineIndex` test — which the source applies to the token at
`startIndex`, not at `endIndex` — returns true; the returned index is the
first that failed. -/
def markupRunLoop (sf : SourceModel) (toks : List Token) (ty : MarkupType) (startIndex : Int)
    (direction : Int) : Nat → Int → Int → Int
  | 0, endIndex, _ => endIndex
  | fuel + 1, endIndex, expectedLineIndex =>
    let endIndex' := endIndex + direction
    let expected' := expectedLineIndex + direction
    if endIndex' < 0 ∨ endIndex' ≥ (toks.length : Int) then endIndex'
    else if findMarkupType (toks.getD endIndex'.toNat default) ≠ ty then endIndex'
    else if _isTokenOnLineIndex sf ty (toks.getD startIndex.toNat default) expected' then endIndex'
    else markupRunLoop sf toks ty startIndex direction fuel endIndex' expected'

/-- Port of the single-location `DocMarkupExtractor::_findMarkup`
(slang-doc-extractor.cpp:448): find the start token via the boundary
scan, reject a start at or before index 0 or a negative line index,
double-check the dialect's directionality, extend multi-token runs, and
normalize the range to half-open with `rangeStart < rangeStop`.  `none`
models `SLANG_E_NOT_FOUND`. -/
def findMarkupOne (sf : SourceModel) (toks : List Token) (tokIndex : Int) (location : Location) :
    Option FoundMarkup :=
  let startIndex := _findStartIndex toks location tokIndex
  if startIndex ≤ 0 then none
  else
    let startOffset := (toks.getD (startIndex - 1).toNat default).loc - sf.rangeBegin
    let lineIndex := sf.lineOf startOffset
    if lineIndex < 0 then none
    else
      let searchDirection : Int := if location.isBefore then -1 else 1
      let ty := findMarkupType (toks.getD startIndex.toNat default)
      let flags := getFlags ty
      let requiredOk := if location.isBefore then flags.isBefore else flags.isAfter
      if ¬ requiredOk then none
      else
        let endIndex :=
          if flags.isMultiToken then
            markupRunLoop sf toks ty startIndex searchDirection (toks.length + 2)
              startIndex lineIndex - searchDirection
          else startIndex
        let s := if endIndex < startIndex then endIndex else startIndex
        let e := if endIndex < startIndex then startIndex else endIndex
        some { type := ty, location := location, rangeStart := s, rangeStop := e + 1 }

/-- Port of `DocMarkupExtractor::_findFirstMarkup`
(slang-doc-extractor.cpp:551): try candidate locations in order, return
the first success together with its position in the candidate list. -/
def _findFirstMarkup (sf : SourceModel) (toks : List Token) (tokIndex : Int) :
    List Location → Nat → Option (FoundMarkup × Nat)
  | [], _ => none
  | l :: rest, i =>
    match findMarkupOne sf toks tokIndex l with
    | some fm => some (fm, i)
    | none => _findFirstMarkup sf toks tokIndex rest (i + 1)

/-- Port of the multi-location `DocMarkupExtractor::_findMarkup`
(slang-doc-extractor.cpp:566), paired with the list of diagnostics it
emits: after the first success the remaining candidate locations are
searched again, but the body that would report an ambiguity warning is an
unfilled `TODO(JS)` (line 579) — no diagnostic sink is even in scope in
the source function — so the emitted-diagnostics component is built with
no append anywhere. -/
def findMarkupMulti (sf : SourceModel) (toks : List Token) (tokIndex : Int)
    (locs : List Location) : Option FoundMarkup × List String :=
  match _findFirstMarkup sf toks tokIndex locs 0 with
  | none => (none, [])
  | some (fm, foundIndex) =>
    let _ := (locs.drop (foundIndex + 1)).map (fun l => findMarkupOne sf toks tokIndex l)
    (some fm, [])

/-- Search styles.  Modelled from the spec: enumeration
`DocMarkupExtractor::SearchStyle` of `slang-doc-extractor.h`. -/
inductive SearchStyle where
  | none
  | enumCase
  | param
  | before
  | function
  | variable
  | genericParam
  deriving DecidableEq, Repr

/-- The ordered candidate locations per search style, as listed in the
style dispatch of `DocMarkupExtractor::_findMarkup`
(slang-doc-extractor.cpp:620-658). -/
def searchLocations : SearchStyle → List Location
  | SearchStyle.none => []
  | SearchStyle.enumCase => [Location.before, Location.afterEnumCase]
  | SearchStyle.param => [Location.before, Location.afterParam]
  | SearchStyle.before => [Location.before]
  | SearchStyle.function => [Location.before]
  | SearchStyle.variable => [Location.before, Location.afterSemicolon]
  | SearchStyle.genericParam => [Location.before, Location.afterGenericParam]

/-- Port of the style dispatch `DocMarkupExtractor::_findMarkup`
(slang-doc-extractor.cpp:620): `SearchStyle::None` is `SLANG_E_NOT_FOUND`;
the `Before` and `Function` styles call the single-location search
directly; the other styles go through the multi-location search. -/
def findMarkupForStyle (sf : SourceModel) (toks : List Token) (tokIndex : Int)
    (style : SearchStyle) : Option FoundMarkup × List String :=
  match style with
  | SearchStyle.none => (none, [])
  | SearchStyle.before => (findMarkupOne sf toks tokIndex Location.before, [])
  | SearchStyle.function => (findMarkupOne sf toks tokIndex Location.before, [])
  | _ => findMarkupMulti sf toks tokIndex (searchLocations style)

/-- The interval-narrowing loop of `_findTokenIndex`
(slang-doc-extractor.cpp:76-94); `fuel` strictly exceeds the iteration
count, which is bounded by the width of the search interval. -/
def findTokenLoop (toks : List Token) (loc : Int) : Nat → Nat → Nat → Int
  | 0, _, _ => -1
  | fuel + 1, lo, hi =>
    if lo + 1 < hi then
      let mid := (hi + lo) / 2
      let midLoc := (toks.getD mid default).loc
      if midLoc = loc then (mid : Int)
      else if midLoc ≤ loc then findTokenLoop toks loc fuel mid hi
      else findTokenLoop toks loc fuel lo mid
    else -1

/-- Port of `_findTokenIndex` (slang-doc-extractor.cpp:70): binary search
the token stream for a token whose raw location equals `loc`; `-1` when
not found. -/
def _findTokenIndex (toks : List Token) (loc : Int) : Int :=
  findTokenLoop toks loc (toks.length + 1) 0 toks.length

/-- Visibility levels.  Modelled from the spec: enumeration
`MarkupVisibility` with `Public` as the default/initial value. -/
inductive MarkupVisibility where
  | public
  | internal
  | hidden
  deriving DecidableEq, Repr

/-- The new visibility computed from one line comment's contents in
`_calcLineVisibility` (slang-doc-extractor.cpp:675-695): a comment
starting with the sentinel `//@` whose trimmed remainder is one of the
recognized labels changes the visibility; anything else keeps it. -/
def visibilityFromComment (contents : List Char) (lastVisibility : MarkupVisibility) :
    MarkupVisibility :=
  if startsWithLit contents ("//@") then
    let access := trim (contents.drop 3)
    if access = ("hidden:").toList ∨ access = ("private:").toList then MarkupVisibility.hidden
    else if access = ("internal:").toList then MarkupVisibility.internal
    else if access = ("public:").toList then MarkupVisibility.public
    else lastVisibility
  else lastVisibility

/-- Fill table cells `a ≤ i < b` (bounds as the source's signed `Index`)
with visibility `v`.  A cell is `some v` once written; writes outside the
table — undefined behaviour in the source — write nothing. -/
def fillVisibility (table : List (Option MarkupVisibility)) (a b : Int) (v : MarkupVisibility) :
    List (Option MarkupVisibility) :=
  table.mapIdx (fun i c => if a ≤ (i : Int) ∧ (i : Int) < b then some v else c)

/-- State of the `_calcLineVisibility` pass: the table built so far, the
current visibility and the line of the last visibility change
(`lastVisibility` / `lastLine` in the source). -/
abbrev VisState := List (Option MarkupVisibility) × MarkupVisibility × Int

/-- One iteration of the token loop of `_calcLineVisibility`
(slang-doc-extractor.cpp:671-714): a line comment that changes the
visibility fills the span from the last change line up to (excluding)
its own line with the old visibility. -/
def visStep (sf : SourceModel) (st : VisState) (tok : Token) : VisState :=
  if tok.type = TokenType.lineComment then
    let newVisibility := visibilityFromComment tok.content st.2.1
    if newVisibility ≠ st.2.1 then
      let line := sf.lineOf (tok.loc - sf.rangeBegin)
      (fillVisibility st.1 st.2.2 line st.2.1, newVisibility, line)
    else st
  else st

/-- Port of `_calcLineVisibility` (slang-doc-extractor.cpp:661): a single
pass over the tokens; on every sentinel-induced visibility change, fill
the span from the last change line up to (excluding) the sentinel's line
with the old visibility, then the remainder with the final visibility.
Cells start as `none` (default-constructed in the source) and become
`some v` when written. -/
def calcLineVisibility (sf : SourceModel) (toks : List Token) : List (Option MarkupVisibility) :=
  let n := sf.lineBreaks.length + 1
  let init : List (Option MarkupVisibility) := List.replicate n none
  let st := toks.foldl (visStep sf) (init, MarkupVisibility.public, 0)
  fillVisibility st.1 st.2.2 (n : Int) st.2.1

/-- Port of `DocMarkupExtractor::_extractMarkup`
(slang-doc-extractor.cpp:180): dispatch on the found dialect.  The block
branch extracts from the single token of the span, with the pre-comment
column computed from the token's offset and its line start; the line
branch extracts over the token range; `MarkupType::None` is the source's
`SLANG_FAIL` (unreachable from a successful find). -/
def _extractMarkup (sf : SourceModel) (toks : List Token) (fm : FoundMarkup) :
    Option (List Char) :=
  match fm.type with
  | MarkupType.blockBefore | MarkupType.blockAfter =>
    let tok := toks.getD fm.rangeStart.toNat default
    let offset := tok.loc - sf.rangeBegin
    let col := offset - sf.lineStartOf offset
    some (extractMarkupBlock fm.type tok.content col)
  | MarkupType.none => Option.none
  | ty => some (extractMarkupLineRun ty toks fm.rangeStart.toNat fm.rangeStop.toNat)

/-- One extraction request: a raw source location and a search style
(the source's `SearchItemInput`). -/
structure SearchItemInput where
  sourceLoc : Int
  searchStyle : SearchStyle
  deriving DecidableEq, Repr

/-- One extraction result (the source's `SearchItemOutput`, keeping its
spelling of `visibilty`): the view index, the index of the request in the
caller's input array, the resolved visibility, and the extracted text. -/
structure SearchItemOutput where
  viewIndex : Int
  inputIndex : Nat
  visibilty : MarkupVisibility
  text : List Char
  deriving DecidableEq, Repr

/-- The batch driver's working entry (the local `Entry` struct of
`DocMarkupExtractor::extract`, slang-doc-extractor.cpp:726): view index,
a raw location that later becomes an offset, the search style, and the
originating input index. -/
structure Entry where
  viewIndex : Int
  locOrOffset : Int
  searchStyle : SearchStyle
  inputIndex : Nat
  deriving DecidableEq, Repr

/-- Insert into a sorted list using a strict comparator, placing the
element before the first position where the comparator holds.  Models the
comparator-based `List::sort` of the source deterministically. -/
def insertByLt (lt : α → α → Bool) (x : α) : List α → List α
  | [] => [x]
  | y :: ys => if lt x y then x :: y :: ys else y :: insertByLt lt x ys

/-- Comparator-based sort (insertion sort) modelling `List::sort`. -/
def sortByLt (lt : α → α → Bool) : List α → List α
  | [] => []
  | x :: xs => insertByLt lt x (sortByLt lt xs)

/-- Does the view's raw-location range contain `loc`
(`SourceRange::contains`)? -/
def viewContains (v : SourceModel) (loc : Int) : Bool :=
  v.rangeBegin ≤ loc ∧ loc < v.rangeEnd

/-- Modelled from the spec: `SourceManager::findSourceView` returns a view
owning the location. -/
def findSourceView (mgr : List SourceModel) (loc : Int) : Option SourceModel :=
  mgr.find? (fun v => viewContains v loc)

/-- The view-refinding step of the resolution pass
(slang-doc-extractor.cpp:765-779): look the location up in the source
manager and deduplicate the collected views by underlying file. -/
def resolveNew (mgr : List SourceModel) (outViews : List SourceModel) (loc : Int) :
    Option (SourceModel × Int × List SourceModel) :=
  match findSourceView mgr loc with
  | Option.none => Option.none
  | some v =>
    match outViews.findIdx? (fun (w : SourceModel) => w.fileId = v.fileId) with
    | some vi => some (v, (vi : Int), outViews)
    | Option.none => some (v, (outViews.length : Int), outViews ++ [v])

/-- The per-entry view choice of the resolution pass
(slang-doc-extractor.cpp:763): reuse the current view when it contains
the entry's location, otherwise re-find. -/
def resolveOne (mgr : List SourceModel) (cur : Option (SourceModel × Int))
    (outViews : List SourceModel) (loc : Int) :
    Option (SourceModel × Int × List SourceModel) :=
  match cur with
  | some (v, vi) =>
    if viewContains v loc then some (v, vi, outViews) else resolveNew mgr outViews loc
  | Option.none => resolveNew mgr outViews loc

/-- Port of the view-resolution pass of `DocMarkupExtractor::extract`
(slang-doc-extractor.cpp:755-789): walk the location-sorted entries,
re-finding a view only when the current one does not contain the entry's
location, and replacing each entry's raw location by its offset within
the found view.  `none` models a failed view lookup (the source asserts
and would dereference null). -/
def resolveViews (mgr : List SourceModel) :
    List Entry → Option (SourceModel × Int) → List SourceModel →
    Option (List Entry × List SourceModel)
  | [], _, outViews => some ([], outViews)
  | e :: rest, cur, outViews =>
    match resolveOne mgr cur outViews e.locOrOffset with
    | Option.none => Option.none
    | some (v, vi, outViews') =>
      match resolveViews mgr rest (some (v, vi)) outViews' with
      | Option.none => Option.none
      | some (rest', finalViews) =>
        some ({ e with viewIndex := vi, locOrOffset := e.locOrOffset - v.rangeBegin } :: rest',
          finalViews)

/-- Port of the per-entry body of the request loop of
`DocMarkupExtractor::extract` (slang-doc-extractor.cpp:812-889).  The
source caches the token list and visibility table across consecutive
entries of the same view (made contiguous by the second sort) and
recomputes them exactly from the view on a view change; the model obtains
them directly from the entry's view, which yields the same values.  The
visibility table is read at the computed line index (source line 859)
before the `lineIndex >= 0` guard (source line 863); an out-of-bounds
read is undefined behaviour and aborts the model with `none`, as does the
`SLANG_RETURN_ON_FAIL` around `_extractMarkup`. -/
def processEntry (outViews : List SourceModel) (e : Entry) : Option SearchItemOutput :=
  if e.searchStyle = SearchStyle.none then
    some { viewIndex := -1, inputIndex := e.inputIndex,
           visibilty := MarkupVisibility.public, text := [] }
  else
    match (if 0 ≤ e.viewIndex ∧ e.viewIndex < (outViews.length : Int)
           then outViews.get? e.viewIndex.toNat else Option.none) with
    | Option.none => Option.none
    | some sourceView =>
      let toks := sourceView.tokens
      let lineVisibility := calcLineVisibility sourceView toks
      let offset := e.locOrOffset
      let loc := sourceView.rangeBegin + offset
      let lineIndex := sourceView.lineOf offset
      match (if 0 ≤ lineIndex ∧ lineIndex < (lineVisibility.length : Int)
             then lineVisibility.get? lineIndex.toNat else Option.none) with
      | Option.none => Option.none
      | some cell =>
        let vis := cell.getD MarkupVisibility.public
        let tokenIndex := _findTokenIndex toks loc
        if tokenIndex ≥ 0 ∧ lineIndex ≥ 0 then
          match (findMarkupForStyle sourceView toks tokenIndex e.searchStyle).1 with
          | some fm =>
            match _extractMarkup sourceView toks fm with
            | some text =>
              some { viewIndex := e.viewIndex, inputIndex := e.inputIndex,
                     visibilty := vis, text := text }
            | Option.none => Option.none
          | Option.none =>
            some { viewIndex := e.viewIndex, inputIndex := e.inputIndex,
                   visibilty := vis, text := [] }
        else
          some { viewIndex := e.viewIndex, inputIndex := e.inputIndex,
                 visibilty := vis, text := [] }

/-- Port of the batched `DocMarkupExtractor::extract`
(slang-doc-extractor.cpp:724): one entry per input tagged with its input
index, sorted by raw location; views resolved and locations turned into
offsets; re-sorted by view then offset; each entry processed in that
internal order.  The returned results are in that internal order, each
carrying the `inputIndex` of the request it answers.  `none` models an
aborted batch. -/
def extractModel (mgr : List SourceModel) (inputs : List SearchItemInput) :
    Option (List SearchItemOutput × List SourceModel) :=
  let entries := (List.range inputs.length).map (fun i =>
    let input := inputs.getD i ⟨0, SearchStyle.none⟩
    Entry.mk (-1) input.sourceLoc input.searchStyle i)
  let entries := sortByLt (fun a b => a.locOrOffset < b.locOrOffset) entries
  match resolveViews mgr entries Option.none [] with
  | Option.none => Option.none
  | some (entries2, outViews) =>
    let entries3 := sortByLt (fun a b =>
      a.viewIndex < b.viewIndex ∨ (a.viewIndex = b.viewIndex ∧ a.locOrOffset < b.locOrOffset))
      entries2
    match entries3.mapM (processEntry outViews) with
    | Option.none => Option.none
    | some out => some (out, outViews)

/-! ### Spec-side definitions used for refinement statements -/

/-- Spec §4.5, line dialects: the decoration-stripped content of every
token of the half-open run `[s, e)`. -/
def strippedRunLines (ty : MarkupType) (toks : List Token) (s e : Nat) : List (List Char) :=
  (List.range (e - s)).map (fun k => removeStart ty (toks.getD (s + k) default).content)

/-- Spec §4.5: drop the first line if, after stripping, it is all
whitespace. -/
def dropIfBlankHead : List (List Char) → List (List Char)
  | [] => []
  | a :: rest => if (trim a).length = 0 then rest else a :: rest

/-- Spec §4.5: drop the last line if, after stripping, it is all
whitespace. -/
def dropIfBlankLast (ls : List (List Char)) : List (List Char) :=
  (dropIfBlankHead ls.reverse).reverse

/-- Spec §4.5: the surviving lines of a line-dialect run. -/
def runSurvivors (ty : MarkupType) (toks : List Token) (s e : Nat) : List (List Char) :=
  dropIfBlankLast (dropIfBlankHead (strippedRunLines ty toks s e))

/-- The line-dialect extraction as the spec's §4.5 words it: strip each
token's decoration prefix; drop the first or last line if, after
stripping, it is all whitespace; compute the minimum leading-space
indentation across all surviving lines and strip exactly that many
leading characters from every line; join with newline terminators; no
surviving lines give empty text. -/
def extractLineRunSpec (ty : MarkupType) (toks : List Token) (s e : Nat) : List Char :=
  let survivors := runSurvivors ty toks s e
  match survivors.map (fun l => _calcWhitespaceIndent l) with
  | [] => []
  | ind :: inds =>
    let m := inds.foldl min ind
    (survivors.map (fun l => l.drop m.toNat ++ ['\n'])).flatten

/-- Keep every line except an all-whitespace last one.  Stepping stone
between the index-based collection loop of the source's line-dialect
branch and the spec's first/last formulation. -/
def keepLast : List (List Char) → List (List Char)
  | [] => []
  | [b] => if (trim b).length = 0 then [] else [b]
  | a :: b :: zs => a :: keepLast (b :: zs)

/-- Keep every line except a first or last one that is all whitespace
(the endpoint-dropping of the source's collection loop,
slang-doc-extractor.cpp:268-280, in positional form). -/
def keepRun : List (List Char) → List (List Char)
  | [] => []
  | [a] => if (trim a).length = 0 then [] else [a]
  | a :: b :: zs => (if (trim a).length = 0 then [] else [a]) ++ keepLast (b :: zs)

/-- A token stream is strictly ascending when every earlier token's raw
location is strictly below every later one's. -/
def StrictlyAscendingLocs (toks : List Token) : Prop :=
  List.Pairwise (fun a b => a.loc < b.loc) toks

/-- No token of the stream is a visibility sentinel: its content never
changes the visibility state of `_calcLineVisibility`. -/
def SentinelFree (toks : List Token) : Prop :=
  ∀ tok ∈ toks, ∀ v, visibilityFromComment tok.content v = v

/-! ### Concrete scenarios -/

/-- Line-break offsets of the C2 scenario file:
line 0 `/// fourth`, line 1 blank, lines 2-4 `/// one` / `/// two` /
`/// three`, line 5 `int y;`. -/
def c2breaks : List Int := [10, 11, 19, 27, 37]

/-- Tokens of the C2 scenario: a distant `///` comment on line 0, a blank
line, a contiguous run of three `///` comments on lines 2-4, and the
declaration `int y;` on line 5. -/
def c2toks : List Token :=
  [⟨TokenType.lineComment, ("/// fourth").toList, 0, 10⟩,
   ⟨TokenType.lineComment, ("/// one").toList, 12, 7⟩,
   ⟨TokenType.lineComment, ("/// two").toList, 20, 7⟩,
   ⟨TokenType.lineComment, ("/// three").toList, 28, 9⟩,
   ⟨TokenType.other, ("int").toList, 38, 3⟩,
   ⟨TokenType.other, ("y").toList, 42, 1⟩,
   ⟨TokenType.semicolon, (";").toList, 43, 1⟩]

/-- The C2 scenario's source view. -/
def c2sf : SourceModel := mkSource 0 0 100 c2breaks c2toks

/-- The C3 scenario: the block comment token of the input
`/** Multi\n    line\n */ int y;`, which starts at offset 0 (column 0 of
line 0). -/
def c3toks : List Token :=
  [⟨TokenType.blockComment, ("/** Multi\n    line\n */").toList, 0, 22⟩,
   ⟨TokenType.other, ("int").toList, 23, 3⟩,
   ⟨TokenType.other, ("y").toList, 27, 1⟩,
   ⟨TokenType.semicolon, (";").toList, 28, 1⟩]

/-- The C3 scenario's source view (line breaks after `/** Multi` and
after `    line`). -/
def c3sf : SourceModel := mkSource 0 0 40 [9, 18] c3toks

/-- The found block markup of the C3 scenario: the single block-comment
token. -/
def c3found : FoundMarkup :=
  ⟨MarkupType.blockBefore, Location.before, 0, 1⟩

/-- A single-token stream whose only token's location is 5, for the C4
counterexample. -/
def c4toks : List Token := [⟨TokenType.other, ("x").toList, 5, 1⟩]

/-- A three-token strictly ascending stream for the C4 witness. -/
def c4toksW : List Token :=
  [⟨TokenType.other, ("a").toList, 2, 1⟩,
   ⟨TokenType.other, ("b").toList, 5, 1⟩,
   ⟨TokenType.other, ("c").toList, 9, 1⟩]

/-- A semicolon token for the C5 scenario. -/
def c5semi : Token := ⟨TokenType.semicolon, (";").toList, 0, 1⟩

/-- A closing-brace token for the C5 scenario. -/
def c5brace : Token := ⟨TokenType.rBrace, ("\x7d").toList, 0, 1⟩

/-- Tokens of the C6 scenario: line 0 `;`, line 1 `/// doc`, line 2
`int y; //!< post` — markup exists both before the declaration and after
its semicolon. -/
def c6toks : List Token :=
  [⟨TokenType.semicolon, (";").toList, 0, 1⟩,
   ⟨TokenType.lineComment, ("/// doc").toList, 2, 7⟩,
   ⟨TokenType.other, ("int").toList, 10, 3⟩,
   ⟨TokenType.other, ("y").toList, 14, 1⟩,
   ⟨TokenType.semicolon, (";").toList, 15, 1⟩,
   ⟨TokenType.lineComment, ("//!< post").toList, 17, 9⟩]

/-- The C6 scenario's source view. -/
def c6sf : SourceModel := mkSource 0 0 100 [1, 9] c6toks

/-- Line breaks of the C7 example file: 13 lines of 20 bytes each. -/
def c7breaks : List Int := (List.range 12).map (fun i => (20 * i + 19 : Int))

/-- Tokens of the C7 example: `//@hidden:` on line 5 (offset 100) and
`//@public:` on line 10 (offset 200). -/
def c7toks : List Token :=
  [⟨TokenType.lineComment, ("//@hidden:").toList, 100, 10⟩,
   ⟨TokenType.lineComment, ("//@public:").toList, 200, 10⟩]

/-- The C7 example's source view. -/
def c7sf : SourceModel := mkSource 0 0 1000 c7breaks c7toks

/-- The expected C7 visibility table: Public for lines 0-4, Hidden for
lines 5-9, Public for lines 10-12. -/
def c7expected : List (Option MarkupVisibility) :=
  List.replicate 5 (some MarkupVisibility.public) ++
    List.replicate 5 (some MarkupVisibility.hidden) ++
    List.replicate 3 (some MarkupVisibility.public)

/-- Three `///` comment tokens whose decoration-stripped contents are
indented by 4, 2 and 6 spaces, for the C8 witness. -/
def c8toks : List Token :=
  [⟨TokenType.lineComment, ("///    a").toList, 0, 8⟩,
   ⟨TokenType.lineComment, ("///  b").toList, 10, 6⟩,
   ⟨TokenType.lineComment, ("///      c").toList, 20, 10⟩]

/-- The C1 scenario's source manager: one view covering locations
[0, 100). -/
def c1mgr : List SourceModel := [mkSource 0 0 100 [] []]

/-- Two requests whose raw locations are in descending order. -/
def c1inputs : List SearchItemInput :=
  [⟨50, SearchStyle.none⟩, ⟨10, SearchStyle.none⟩]

/-- The output list the batched extract produces for `c1inputs`: internal
sorted order, each element tagged with the input index it answers. -/
def c1out : List SearchItemOutput :=
  [⟨-1, 1, MarkupVisibility.public, []⟩, ⟨-1, 0, MarkupVisibility.public, []⟩]

/-- A view whose line service reports a negative line index for every
offset, for the C10 witness. -/
def c10svNeg : SourceModel := ⟨0, 0, 100, [], fun _ => -1, fun _ => 0, []⟩

/-- A view whose line service reports line 0 for every offset and that
has no tokens, for the C10 witness. -/
def c10svPos : SourceModel := ⟨0, 0, 100, [], fun _ => 0, fun _ => 0, []⟩

/-- A processed entry (style `Variable`) pointing into view 0 at offset
10, for the C10 witness. -/
def c10entry : Entry := ⟨0, 10, SearchStyle.variable, 0⟩

/-! ### Claim C9: the token classifier -/

set_option linter.unnecessarySeqFocus false in
/-- C9: for every token, the classifier returns: for a block comment
whose third character is `!` or `*`, the after-dialect if the fourth
character is `<` else the before-dialect; for a line comment whose third
character is `!` the bang dialect and whose third character is `/` the
slash dialect, after if the fourth character is `<` else before; and
none for every other comment and every non-comment token — i.e. the
ported classifier coincides with the spec's classification rules on all
tokens. -/
theorem C9_classifier (tok : Token) : findMarkupType tok = markupTypeSpec tok := by
  unfold findMarkupType markupTypeSpec
  cases tok.type <;> simp only [] <;> split_ifs <;> first | rfl | tauto

/-! ### Claim C5: depth gating of the boundary scan's accept/fail rules -/

/-- C5 counterexample: the claim says that at non-zero depth a semicolon
does not terminate a `Before` scan, but the ported step of
`_findStartIndex` fails on a semicolon in a `Before` scan even at depth
1 (the `location == Location::Before` test of slang-doc-extractor.cpp:412
is not guarded by `openCount == 0`). -/
theorem C5_counterexample :
    scanStep Location.before 1 c5semi 5 = ScanStep.fail
  ∧ ¬ (scanStep Location.before 1 c5semi 5 = ScanStep.next 1) := by decide

/-- C5 amended: the accept condition for a semicolon (`AfterSemicolon`,
yielding index + 1) fires only at depth zero, but the fail conditions —
a semicolon in a `Before` scan, and a closing brace in a `Before` or
`AfterEnumCase` scan — fire at any depth. -/
theorem C5_amended (oc i : Int) (tokSemi tokBrace : Token)
    (hs : tokSemi.type = TokenType.semicolon) (hb : tokBrace.type = TokenType.rBrace) :
    scanStep Location.before oc tokSemi i = ScanStep.fail
  ∧ scanStep Location.afterSemicolon oc tokSemi i =
      (if oc = 0 then ScanStep.accept (i + 1) else ScanStep.next oc)
  ∧ scanStep Location.before oc tokBrace i = ScanStep.fail
  ∧ scanStep Location.afterEnumCase oc tokBrace i = ScanStep.fail := by
  simp only [scanStep, hs, hb]
  refine ⟨by simp, ?_, by simp, by simp⟩
  by_cases h : oc = 0 <;> simp [h]

/-- C5 witness: the amended statement evaluated at depth 1 with concrete
semicolon and closing-brace tokens. -/
theorem C5_witness :
    scanStep Location.before 1 c5semi 5 = ScanStep.fail
  ∧ scanStep Location.afterSemicolon 1 c5semi 5 =
      (if (1 : Int) = 0 then ScanStep.accept (5 + 1) else ScanStep.next 1)
  ∧ scanStep Location.before 1 c5brace 5 = ScanStep.fail
  ∧ scanStep Location.afterEnumCase 1 c5brace 5 = ScanStep.fail :=
  C5_amended 1 5 c5semi c5brace rfl rfl

/-! ### Claim C2: line adjacency in the multi-token span extension -/

/-- C2: on the scenario of three `///` comments on consecutive lines
immediately preceding the declaration, with a blank line and a fourth
`///` comment further away, the claim (and the code's own comment at
slang-doc-extractor.cpp:522) requires the found span to be exactly the
three adjacent tokens, range [1, 4); the ported search instead returns
the range [0, 4) including the distant fourth comment, because the check
of line 523 tests the fixed token at `startIndex` against the moving
expected line and stops on a match, so it can never fire on a backward
scan. -/
theorem C2_code_behaviour :
    findMarkupOne c2sf c2toks 4 Location.before =
      some ⟨MarkupType.lineSlashBefore, Location.before, 0, 4⟩
  ∧ ¬ (findMarkupOne c2sf c2toks 4 Location.before =
      some ⟨MarkupType.lineSlashBefore, Location.before, 1, 4⟩) := by decide

/-! ### Claim C3: the block-dialect example -/

/-- C3 counterexample: for the input `/** Multi\n    line\n */ int y;`
(comment starting at column 0), extraction does not yield the lines
`Multi` and `line` that the claim states. -/
theorem C3_counterexample :
    ¬ (_extractMarkup c3sf c3toks c3found = some (("Multi\nline\n").toList)) := by decide

/-- C3 amended: for that input the block extraction yields the two lines
` Multi` and `    line` (each newline-terminated): the three-character
decoration prefix `/**` is removed (the space after it remains), the
trailing `*/` is removed, interior lines are stripped of at most the
block's leading-indent baseline — which is 0 here, the comment's column —
and the all-whitespace final line is dropped. -/
theorem C3_amended_theorem :
    _extractMarkup c3sf c3toks c3found = some ((" Multi\n    line\n").toList) := by decide

/-! ### Claim C4: the token binary search -/

/-- C4 counterexample: a stream whose first (and only) token is exactly
at the requested location, yet the binary search returns -1: the loop
`lo + 1 < hi` never compares index 0. -/
theorem C4_counterexample :
    _findTokenIndex c4toks 5 = -1 ∧ (c4toks.getD 0 default).loc = 5 := by decide

/-! ### Claim C6: ambiguity handling of the multi-location search -/

/-- C6 counterexample: a scenario where both candidate locations
(`Before` and `AfterSemicolon`) yield markup, yet the multi-location
search emits no diagnostic at all — the warning is an unfilled
`TODO(JS)` in the source (slang-doc-extractor.cpp:579) and no diagnostic
sink is in scope — contradicting the claim that each additional match is
reported to the sink. -/
theorem C6_counterexample :
    (findMarkupOne c6sf c6toks 2 Location.before).isSome = true
  ∧ (findMarkupOne c6sf c6toks 2 Location.afterSemicolon).isSome = true
  ∧ (findMarkupMulti c6sf c6toks 2 [Location.before, Location.afterSemicolon]).2 = [] := by
  decide

/-- C6 amended: after the first candidate location succeeds, the
remaining candidates are evaluated but any additional match is discarded
without emitting any diagnostic (the warning is left as a TODO in the
source); the returned result is exactly the first match. -/
theorem C6_amended (sf : SourceModel) (toks : List Token) (tokIndex : Int)
    (locs : List Location) :
    (findMarkupMulti sf toks tokIndex locs).1 =
      (_findFirstMarkup sf toks tokIndex locs 0).map (fun p => p.1)
  ∧ (findMarkupMulti sf toks tokIndex locs).2 = [] := by
  unfold findMarkupMulti
  cases _findFirstMarkup sf toks tokIndex locs 0 with
  | none => simp
  | some p => cases p; simp

/-! ### Claim C1: batch output order -/

/-- C1 counterexample: two requests whose raw locations are in
descending order; the batched extract returns its results in the
internal sorted order, so the element at index 0 carries `inputIndex` 1 —
it answers the request at input index 1, not 0 as the claim states. -/
theorem C1_counterexample :
    (extractModel c1mgr c1inputs).map (fun r => r.1.map (fun o => o.inputIndex)) = some [1, 0]
  ∧ ¬ ((extractModel c1mgr c1inputs).map (fun r => r.1.map (fun o => o.inputIndex)) =
        some [0, 1]) := by decide

/-! ### Claim C10: the visibility lookup precedes the line-index guard -/

/-- C10: in the per-request processing of the batch extract loop, for a
request with a search style other than `None`, the visibility-table
lookup at the computed line index happens before the non-negativity check
on that index: a negative line index reaches the table access unguarded
(the access is out of bounds, undefined behaviour, modelled as `none`),
while a line index in `[0, lineCount)` makes the lookup succeed and its
cell's value flow into the result. -/
theorem C10_guard_order (views : List SourceModel) (e : Entry) (sv : SourceModel)
    (hstyle : ¬ (e.searchStyle = SearchStyle.none))
    (hvi : 0 ≤ e.viewIndex ∧ e.viewIndex < (views.length : Int))
    (hsv : views.get? e.viewIndex.toNat = some sv) :
    (sv.lineOf e.locOrOffset < 0 → processEntry views e = Option.none)
  ∧ (∀ cell, 0 ≤ sv.lineOf e.locOrOffset →
      sv.lineOf e.locOrOffset < ((calcLineVisibility sv sv.tokens).length : Int) →
      (calcLineVisibility sv sv.tokens).get? (sv.lineOf e.locOrOffset).toNat = some cell →
      _findTokenIndex sv.tokens (sv.rangeBegin + e.locOrOffset) < 0 →
      processEntry views e =
        some { viewIndex := e.viewIndex, inputIndex := e.inputIndex,
               visibilty := cell.getD MarkupVisibility.public, text := [] }) := by
  constructor
  · intro hneg
    unfold processEntry
    rw [if_neg hstyle, if_pos hvi, hsv]
    simp only []
    rw [if_neg (by omega : ¬ (0 ≤ sv.lineOf e.locOrOffset ∧
      sv.lineOf e.locOrOffset < ((calcLineVisibility sv sv.tokens).length : Int)))]
  · intro cell h0 hlt hcell htok
    unfold processEntry
    rw [if_neg hstyle, if_pos hvi, hsv]
    simp only []
    rw [if_pos ⟨h0, hlt⟩, hcell]
    simp only []
    rw [if_neg (by omega : ¬ (_findTokenIndex sv.tokens (sv.rangeBegin + e.locOrOffset) ≥ 0 ∧
      sv.lineOf e.locOrOffset ≥ 0))]

/-- C10 witness: a view whose line service reports a negative line index
makes the processing hit the unguarded table access, while a view
reporting line 0 flows the looked-up Public cell into the result. -/
theorem C10_witness :
    processEntry [c10svNeg] c10entry = Option.none
  ∧ processEntry [c10svPos] c10entry =
      some { viewIndex := 0, inputIndex := 0,
             visibilty := MarkupVisibility.public, text := [] } := by
  constructor
  · exact (C10_guard_order [c10svNeg] c10entry c10svNeg (by decide) (by decide) rfl).1
      (by decide)
  · exact (C10_guard_order [c10svPos] c10entry c10svPos (by decide) (by decide) rfl).2
      (some MarkupVisibility.public) (by decide) (by decide) (by decide) (by decide)

/-! ### Claim C7: the visibility scanner -/

theorem fillVisibility_length (t : List (Option MarkupVisibility)) (a b : Int)
    (v : MarkupVisibility) : (fillVisibility t a b v).length = t.length := by
  simp [fillVisibility]

theorem fillVisibility_getD (t : List (Option MarkupVisibility)) (a b : Int)
    (v : MarkupVisibility) (i : Nat) (h : i < t.length) :
    (fillVisibility t a b v).getD i Option.none =
      if a ≤ (i : Int) ∧ (i : Int) < b then some v else t.getD i Option.none := by
  have h' : i < (fillVisibility t a b v).length := by rwa [fillVisibility_length]
  rw [List.getD_eq_getElem _ _ h', List.getD_eq_getElem _ _ h]
  have := List.get_mapIdx t
    (fun i c => if a ≤ (i : Int) ∧ (i : Int) < b then some v else c) i h
  simp only [fillVisibility, List.get_eq_getElem] at this
  exact this

theorem fillVisibility_replicate (n : Nat) (v : MarkupVisibility) :
    fillVisibility (List.replicate n Option.none) 0 (n : Int) v =
      List.replicate n (some v) := by
  apply List.ext_getElem
  · simp [fillVisibility_length]
  · intro i h1 h2
    have hi : i < n := by simpa [fillVisibility_length] using h1
    have := fillVisibility_getD (List.replicate n Option.none) 0 (n : Int) v i (by simpa)
    rw [List.getD_eq_getElem _ _ h1] at this
    rw [this, if_pos (by omega : (0 : Int) ≤ (i : Int) ∧ (i : Int) < (n : Int))]
    simp [hi]

theorem visStep_sentinelFree (sf : SourceModel) (st : VisState) (tok : Token)
    (h : ∀ v, visibilityFromComment tok.content v = v) :
    visStep sf st tok = st := by
  unfold visStep
  by_cases htype : tok.type = TokenType.lineComment
  · simp [htype, h st.2.1]
  · simp [htype]

theorem foldl_visStep_sentinelFree (sf : SourceModel) (toks : List Token) (st : VisState)
    (h : SentinelFree toks) : toks.foldl (visStep sf) st = st := by
  induction toks generalizing st with
  | nil => rfl
  | cons tok rest ih =>
    have h1 : ∀ v, visibilityFromComment tok.content v = v := h tok (by simp)
    have h2 : SentinelFree rest := fun t ht v => h t (by simp [ht]) v
    simp only [List.foldl_cons, visStep_sentinelFree sf st tok h1]
    exact ih st h2

/-- Invariant of the `_calcLineVisibility` token pass: the table keeps
its size, the last-change line stays within `[0, n]`, and every cell
below the last-change line has been written. -/
def TableInv (n : Nat) (st : VisState) : Prop :=
  st.1.length = n ∧ 0 ≤ st.2.2 ∧ st.2.2 ≤ (n : Int) ∧
    ∀ i : Nat, (i : Int) < st.2.2 → (st.1.getD i Option.none).isSome

theorem visStep_preserves_inv (sf : SourceModel) (st : VisState) (tok : Token)
    (hline : ∀ o, 0 ≤ sf.lineOf o ∧ sf.lineOf o ≤ (sf.lineBreaks.length : Int))
    (h : TableInv (sf.lineBreaks.length + 1) st) :
    TableInv (sf.lineBreaks.length + 1) (visStep sf st tok) := by
  obtain ⟨table, lastVis, lastLine⟩ := st
  obtain ⟨hlen, hge, hle, hsome⟩ := h
  dsimp only at hlen hge hle hsome
  unfold visStep
  dsimp only
  by_cases htype : tok.type = TokenType.lineComment
  · rw [if_pos htype]
    by_cases hchange : ¬ (visibilityFromComment tok.content lastVis = lastVis)
    · rw [if_pos hchange]
      unfold TableInv
      dsimp only
      obtain ⟨hl0, hl1⟩ := hline (tok.loc - sf.rangeBegin)
      refine ⟨by simp [fillVisibility_length, hlen], hl0, by omega, ?_⟩
      intro i hi
      have hilen : i < table.length := by omega
      rw [fillVisibility_getD table lastLine _ lastVis i hilen]
      by_cases hcase : (i : Int) < lastLine
      · rw [if_neg (by omega)]
        exact hsome i hcase
      · rw [if_pos (by omega)]
        simp
    · rw [if_neg hchange]
      exact ⟨hlen, hge, hle, hsome⟩
  · rw [if_neg htype]
    exact ⟨hlen, hge, hle, hsome⟩

theorem foldl_visStep_inv (sf : SourceModel) (toks : List Token) (st : VisState)
    (hline : ∀ o, 0 ≤ sf.lineOf o ∧ sf.lineOf o ≤ (sf.lineBreaks.length : Int))
    (h : TableInv (sf.lineBreaks.length + 1) st) :
    TableInv (sf.lineBreaks.length + 1) (toks.foldl (visStep sf) st) := by
  induction toks generalizing st with
  | nil => exact h
  | cons tok rest ih =>
    exact ih (visStep sf st tok) (visStep_preserves_inv sf st tok hline h)

theorem visStep_preserves_length (sf : SourceModel) (st : VisState) (tok : Token) :
    (visStep sf st tok).1.length = st.1.length := by
  unfold visStep
  by_cases htype : tok.type = TokenType.lineComment
  · by_cases hchange : ¬ (visibilityFromComment tok.content st.2.1 = st.2.1)
    · simp [htype, hchange, fillVisibility_length]
    · simp [htype, hchange]
  · simp [htype]

theorem foldl_visStep_length (sf : SourceModel) (toks : List Token) (st : VisState) :
    (toks.foldl (visStep sf) st).1.length = st.1.length := by
  induction toks generalizing st with
  | nil => rfl
  | cons tok rest ih =>
    rw [List.foldl_cons, ih (visStep sf st tok), visStep_preserves_length]

theorem calcLineVisibility_length (sf : SourceModel) (toks : List Token) :
    (calcLineVisibility sf toks).length = sf.lineBreaks.length + 1 := by
  unfold calcLineVisibility
  simp [fillVisibility_length, foldl_visStep_length]

theorem mkSource_lineOf_bounds (fid : Nat) (rb re : Int) (breaks : List Int)
    (toks : List Token) (o : Int) :
    0 ≤ (mkSource fid rb re breaks toks).lineOf o ∧
      (mkSource fid rb re breaks toks).lineOf o ≤
        ((mkSource fid rb re breaks toks).lineBreaks.length : Int) := by
  constructor
  · exact Int.ofNat_nonneg _
  · show ((breaks.filter (fun b => b < o)).length : Int) ≤ (breaks.length : Int)
    exact_mod_cast List.length_filter_le _ breaks

/-- C7: the visibility scan assigns a value to every line index of the
file (the table has one cell per line, and — over the concrete line
model — every cell is written); with no sentinel comments every line is
Public; and on the example file with `//@hidden:` on line 5 and
`//@public:` on line 10, lines 0-4 are Public, lines 5-9 Hidden, and
lines 10-12 Public. -/
theorem C7_visibility (sf : SourceModel) (toksA : List Token)
    (fid : Nat) (rb re : Int) (breaks : List Int) (toksB : List Token)
    (hfree : SentinelFree toksA) :
    calcLineVisibility sf toksA =
      List.replicate (sf.lineBreaks.length + 1) (some MarkupVisibility.public)
  ∧ (∀ (sf2 : SourceModel) (toks2 : List Token),
      (calcLineVisibility sf2 toks2).length = sf2.lineBreaks.length + 1)
  ∧ (∀ c ∈ calcLineVisibility (mkSource fid rb re breaks toksB) toksB, c.isSome)
  ∧ calcLineVisibility c7sf c7toks = c7expected := by
  refine ⟨?_, fun sf2 toks2 => calcLineVisibility_length sf2 toks2, ?_, by decide⟩
  · show fillVisibility (toksA.foldl (visStep sf)
        (List.replicate (sf.lineBreaks.length + 1) Option.none, MarkupVisibility.public, 0)).1
        (toksA.foldl (visStep sf)
        (List.replicate (sf.lineBreaks.length + 1) Option.none, MarkupVisibility.public, 0)).2.2
        ((sf.lineBreaks.length + 1 : Nat) : Int)
        (toksA.foldl (visStep sf)
        (List.replicate (sf.lineBreaks.length + 1) Option.none, MarkupVisibility.public, 0)).2.1
        = _
    rw [foldl_visStep_sentinelFree sf toksA _ hfree]
    exact fillVisibility_replicate _ _
  · intro c hc
    set sfB := mkSource fid rb re breaks toksB with hsfB
    have hline : ∀ o, 0 ≤ sfB.lineOf o ∧ sfB.lineOf o ≤ (sfB.lineBreaks.length : Int) :=
      fun o => mkSource_lineOf_bounds fid rb re breaks toksB o
    have hinit : TableInv (sfB.lineBreaks.length + 1)
        (List.replicate (sfB.lineBreaks.length + 1) Option.none, MarkupVisibility.public, 0) := by
      refine ⟨by simp, le_refl 0, Int.ofNat_nonneg _, ?_⟩
      intro i hi
      have hi' : (i : Int) < 0 := hi
      omega
    have hinv := foldl_visStep_inv sfB toksB _ hline hinit
    obtain ⟨hlen, hge, hle, hsome⟩ := hinv
    unfold calcLineVisibility at hc
    obtain ⟨i, hilt, hieq⟩ := List.mem_iff_getElem.mp hc
    have hilen : i < (toksB.foldl (visStep sfB)
        (List.replicate (sfB.lineBreaks.length + 1) Option.none,
          MarkupVisibility.public, 0)).1.length := by
      simpa [fillVisibility_length] using hilt
    rw [← List.getD_eq_getElem _ Option.none hilt] at hieq
    rw [fillVisibility_getD _ _ _ _ i hilen] at hieq
    by_cases hcase : (i : Int) < (toksB.foldl (visStep sfB)
        (List.replicate (sfB.lineBreaks.length + 1) Option.none,
          MarkupVisibility.public, 0)).2.2
    · rw [if_neg (by omega)] at hieq
      rw [← hieq]
      exact hsome i hcase
    · rw [if_pos ⟨by omega, by omega⟩] at hieq
      rw [← hieq]
      simp

/-- C7 witness: the sentinel-free part of the statement evaluated at the
example view with an empty token stream. -/
theorem C7_witness :
    calcLineVisibility c7sf [] =
      List.replicate (c7sf.lineBreaks.length + 1) (some MarkupVisibility.public)
  ∧ (∀ (sf2 : SourceModel) (toks2 : List Token),
      (calcLineVisibility sf2 toks2).length = sf2.lineBreaks.length + 1)
  ∧ (∀ c ∈ calcLineVisibility (mkSource 0 0 1000 c7breaks c7toks) c7toks, c.isSome)
  ∧ calcLineVisibility c7sf c7toks = c7expected :=
  C7_visibility c7sf [] 0 0 1000 c7breaks c7toks
    (fun tok ht => absurd ht (List.not_mem_nil tok))

/-! ### Claim C4, continued: the amended binary-search statement -/

theorem findTokenLoop_finds (toks : List Token) (loc : Int) (j : Nat)
    (hsort : StrictlyAscendingLocs toks) (hjlen : j < toks.length)
    (hloc : (toks.getD j default).loc = loc) :
    ∀ fuel lo hi, hi ≤ toks.length → lo < j → j < hi → hi - lo ≤ fuel →
      findTokenLoop toks loc fuel lo hi = (j : Int) := by
  have hpair : ∀ a b : Nat, a < b → b < toks.length →
      (toks.getD a default).loc < (toks.getD b default).loc := by
    intro a b hab hb
    have ha : a < toks.length := lt_trans hab hb
    rw [List.getD_eq_getElem _ _ ha, List.getD_eq_getElem _ _ hb]
    exact List.pairwise_iff_getElem.mp hsort a b ha hb hab
  intro fuel
  induction fuel with
  | zero => intro lo hi h1 h2 h3 h4; omega
  | succ fuel ih =>
    intro lo hi h1 h2 h3 h4
    unfold findTokenLoop
    rw [if_pos (by omega : lo + 1 < hi)]
    have hmidlo : lo < (hi + lo) / 2 := by omega
    have hmidhi : (hi + lo) / 2 < hi := by omega
    have hmidlen : (hi + lo) / 2 < toks.length := by omega
    by_cases heq : (toks.getD ((hi + lo) / 2) default).loc = loc
    · rw [if_pos heq]
      have hj : (hi + lo) / 2 = j := by
        by_contra hne
        rcases Nat.lt_or_ge ((hi + lo) / 2) j with hlt | hge
        · have := hpair _ j hlt hjlen
          omega
        · have hgt : j < (hi + lo) / 2 := by omega
          have := hpair j _ hgt hmidlen
          omega
      rw [hj]
    · rw [if_neg heq]
      by_cases hle : (toks.getD ((hi + lo) / 2) default).loc ≤ loc
      · rw [if_pos hle]
        have hmj : (hi + lo) / 2 < j := by
          by_contra hge
          rcases Nat.lt_or_ge j ((hi + lo) / 2) with hlt | hge2
          · have := hpair j _ hlt hmidlen
            omega
          · have : j = (hi + lo) / 2 := by omega
            rw [← this] at heq
            exact heq hloc
        exact ih _ hi h1 hmj h3 (by omega)
      · rw [if_neg hle]
        have hjm : j < (hi + lo) / 2 := by
          by_contra hge
          rcases Nat.lt_or_ge ((hi + lo) / 2) j with hlt | hge2
          · have := hpair _ j hlt hjlen
            omega
          · have : j = (hi + lo) / 2 := by omega
            rw [← this] at heq
            exact heq hloc
        exact ih lo _ (by omega) h2 hjm (by omega)

/-- C4 amended: over a strictly ascending token stream, the binary search
returns the index of the token whose location equals the request's
location whenever that index is at least 1; a match at index 0 is the one
case the loop can never compare (the counterexample), and `-1` is
returned there. -/
theorem C4_amended (toks : List Token) (loc : Int) (j : Nat)
    (hsort : StrictlyAscendingLocs toks) (hj0 : 1 ≤ j) (hjlen : j < toks.length)
    (hloc : (toks.getD j default).loc = loc) :
    _findTokenIndex toks loc = (j : Int) := by
  unfold _findTokenIndex
  exact findTokenLoop_finds toks loc j hsort hjlen hloc (toks.length + 1) 0 toks.length
    (le_refl _) (by omega) hjlen (by omega)

/-- C4 witness: the amended statement on a three-token stream with the
match at index 2. -/
theorem C4_witness : _findTokenIndex c4toksW 9 = ((2 : Nat) : Int) :=
  C4_amended c4toksW 9 2 (by unfold StrictlyAscendingLocs; decide) (by omega)
    (by decide) (by decide)

/-! ### Claim C1, continued: the amended order statement -/

theorem insertByLt_perm (lt : α → α → Bool) (x : α) (l : List α) :
    List.Perm (insertByLt lt x l) (x :: l) := by
  induction l with
  | nil => simp [insertByLt]
  | cons y ys ih =>
    unfold insertByLt
    by_cases h : lt x y
    · rw [if_pos h]
    · rw [if_neg h]
      exact (ih.cons y).trans (List.Perm.swap x y ys)

theorem sortByLt_perm (lt : α → α → Bool) (l : List α) :
    List.Perm (sortByLt lt l) l := by
  induction l with
  | nil => simp [sortByLt]
  | cons x xs ih =>
    exact (insertByLt_perm lt x (sortByLt lt xs)).trans (ih.cons x)

theorem resolveViews_inputIndices (mgr : List SourceModel) :
    ∀ (es : List Entry) (cur : Option (SourceModel × Int)) (vs : List SourceModel)
      (es' : List Entry) (vs' : List SourceModel),
      resolveViews mgr es cur vs = some (es', vs') →
      es'.map (fun e => e.inputIndex) = es.map (fun e => e.inputIndex) := by
  intro es
  induction es with
  | nil =>
    intro cur vs es' vs' h
    unfold resolveViews at h
    injection h with h'
    injection h' with h1 h2
    rw [← h1]
  | cons e rest ih =>
    intro cur vs es' vs' h
    unfold resolveViews at h
    rcases hone : resolveOne mgr cur vs e.locOrOffset with _ | ⟨v, vi, ov'⟩
    · rw [hone] at h
      exact absurd h (by simp)
    · rw [hone] at h
      simp only [] at h
      rcases hrec : resolveViews mgr rest (some (v, vi)) ov' with _ | ⟨rest', fv⟩
      · rw [hrec] at h
        exact absurd h (by simp)
      · rw [hrec] at h
        simp only [] at h
        injection h with h'
        injection h' with h1 h2
        rw [← h1]
        simp only [List.map_cons]
        rw [ih (some (v, vi)) ov' rest' fv hrec]

theorem processEntry_inputIndex (views : List SourceModel) (e : Entry)
    (o : SearchItemOutput) (h : processEntry views e = some o) :
    o.inputIndex = e.inputIndex := by
  unfold processEntry at h
  by_cases h1 : e.searchStyle = SearchStyle.none
  · rw [if_pos h1] at h
    injection h with h'
    rw [← h']
  · rw [if_neg h1] at h
    simp only [] at h
    split at h
    · cases h
    · split at h
      · cases h
      · split at h
        · split at h
          · split at h
            · injection h with h'
              rw [← h']
            · cases h
          · injection h with h'
            rw [← h']
        · injection h with h'
          rw [← h']

theorem mapM_processEntry_inputIndices (views : List SourceModel) :
    ∀ (l : List Entry) (out : List SearchItemOutput),
      l.mapM (processEntry views) = some out →
      out.map (fun o => o.inputIndex) = l.map (fun e => e.inputIndex) := by
  intro l
  induction l with
  | nil =>
    intro out h
    simp only [List.mapM_nil, pure, Option.some.injEq] at h
    rw [← h]
    rfl
  | cons e rest ih =>
    intro out h
    rw [List.mapM_cons] at h
    rcases he : processEntry views e with _ | o
    · rw [he] at h
      exact absurd h (by simp [Option.bind])
    · rw [he] at h
      rcases hrest : rest.mapM (processEntry views) with _ | os
      · rw [hrest] at h
        exact absurd h (by simp [Option.bind])
      · rw [hrest] at h
        simp only [Option.bind_some, Option.some.injEq, Option.bind_eq_bind] at h
        have h' : o :: os = out := by
          simpa using h
        rw [← h']
        simp only [List.map_cons]
        rw [processEntry_inputIndex views e o he, ih os hrest]

/-- C1 amended: the batched extract does not return its results in input
order (the counterexample); instead each result carries the input index
of the request it answers, and whenever the batch succeeds the multiset
of carried input indices is exactly `{0, …, N-1}` — every request is
answered exactly once and the caller recovers input order by that key. -/
theorem C1_amended (mgr : List SourceModel) (inputs : List SearchItemInput)
    (out : List SearchItemOutput)
    (h : (extractModel mgr inputs).map (fun r => r.1) = some out) :
    List.Perm (out.map (fun o => o.inputIndex)) (List.range inputs.length) := by
  simp only [extractModel] at h
  rcases hres : resolveViews mgr
      (sortByLt (fun a b => a.locOrOffset < b.locOrOffset)
        ((List.range inputs.length).map (fun i =>
          Entry.mk (-1) (inputs.getD i ⟨0, SearchStyle.none⟩).sourceLoc
            (inputs.getD i ⟨0, SearchStyle.none⟩).searchStyle i)))
      Option.none [] with _ | ⟨es2, views⟩
  · rw [hres] at h
    exact absurd h (by simp)
  · rw [hres] at h
    simp only [] at h
    rcases hmap : (sortByLt (fun a b =>
        a.viewIndex < b.viewIndex ∨ (a.viewIndex = b.viewIndex ∧ a.locOrOffset < b.locOrOffset))
        es2).mapM (processEntry views) with _ | out2
    · rw [hmap] at h
      exact absurd h (by simp)
    · rw [hmap] at h
      simp at h
      rw [← h]
      rw [mapM_processEntry_inputIndices views _ out2 hmap]
      have p2 := (sortByLt_perm (fun (a : Entry) (b : Entry) =>
        a.viewIndex < b.viewIndex ∨ (a.viewIndex = b.viewIndex ∧ a.locOrOffset < b.locOrOffset))
        es2).map (fun e => e.inputIndex)
      refine p2.trans ?_
      rw [resolveViews_inputIndices mgr _ _ _ _ _ hres]
      have p4 := (sortByLt_perm (fun (a : Entry) (b : Entry) => a.locOrOffset < b.locOrOffset)
        ((List.range inputs.length).map (fun i =>
          Entry.mk (-1) (inputs.getD i ⟨0, SearchStyle.none⟩).sourceLoc
            (inputs.getD i ⟨0, SearchStyle.none⟩).searchStyle i))).map (fun e => e.inputIndex)
      refine p4.trans ?_
      have hlist : List.map (fun (e : Entry) => e.inputIndex)
          (List.map (fun i =>
            Entry.mk (-1) (inputs.getD i ⟨0, SearchStyle.none⟩).sourceLoc
              (inputs.getD i ⟨0, SearchStyle.none⟩).searchStyle i)
            (List.range inputs.length)) = List.range inputs.length := by
        rw [List.map_map]
        show List.map (fun i => i) (List.range inputs.length) = List.range inputs.length
        simp
      rw [hlist]

/-- C1 witness: the amended statement on the two-request scenario — the
produced tags `[1, 0]` are a permutation of `{0, 1}`. -/
theorem C1_witness :
    List.Perm (c1out.map (fun o => o.inputIndex)) (List.range c1inputs.length) :=
  C1_amended c1mgr c1inputs c1out (by decide)

/-! ### Claim C8: the line-dialect extraction refines the spec -/

theorem filterMapCongrMem (l : List α) (f f' : α → Option β)
    (h : ∀ a ∈ l, f a = f' a) : l.filterMap f = l.filterMap f' := by
  induction l with
  | nil => rfl
  | cons a t ih =>
    rw [List.filterMap_cons, List.filterMap_cons, h a (by simp),
      ih (fun x hx => h x (by simp [hx]))]

theorem filterMapSomeOf (l : List α) (f : α → Option β) (g : α → β)
    (h : ∀ a ∈ l, f a = some (g a)) : l.filterMap f = l.map g := by
  induction l with
  | nil => rfl
  | cons a t ih =>
    rw [List.filterMap_cons, h a (by simp), List.map_cons,
      ih (fun x hx => h x (by simp [hx]))]

theorem keepLast_append (ms : List (List Char)) (b : List Char) :
    keepLast (ms ++ [b]) = ms ++ (if (trim b).length = 0 then [] else [b]) := by
  induction ms with
  | nil => rfl
  | cons a ms' ih =>
    cases ms' with
    | nil =>
      show a :: keepLast [b] = a :: ([] ++ if (trim b).length = 0 then [] else [b])
      rw [show keepLast [b] = if (trim b).length = 0 then [] else [b] from rfl]
      rfl
    | cons c rest =>
      show a :: keepLast ((c :: rest) ++ [b]) =
        a :: ((c :: rest) ++ if (trim b).length = 0 then [] else [b])
      rw [ih]

theorem lastOnly_keepLast (g : Nat → List Char) (n : Nat) :
    (List.range n).filterMap (fun k =>
        if k = n - 1 ∧ (trim (g k)).length = 0 then none else some (g k)) =
      keepLast ((List.range n).map g) := by
  cases n with
  | zero => rfl
  | succ m =>
    rw [List.range_succ, List.filterMap_append, List.map_append]
    have h1 : (List.range m).filterMap (fun k =>
        if k = m + 1 - 1 ∧ (trim (g k)).length = 0 then none else some (g k)) =
        (List.range m).map g := by
      apply filterMapSomeOf
      intro k hk
      rw [if_neg]
      intro hc
      have hk' : k < m := List.mem_range.mp hk
      omega
    rw [h1]
    simp only [List.map_cons, List.map_nil]
    rw [keepLast_append]
    congr 1
    rw [List.filterMap_cons]
    by_cases hb : (trim (g m)).length = 0
    · rw [if_pos ⟨by omega, hb⟩, if_pos hb]
      rfl
    · rw [if_neg (fun hc => hb hc.2), if_neg hb]
      rfl

theorem keepRun_cons (a : List Char) (t : List (List Char)) (h : t ≠ []) :
    keepRun (a :: t) = (if (trim a).length = 0 then [] else [a]) ++ keepLast t := by
  cases t with
  | nil => exact absurd rfl h
  | cons b zs => rfl

theorem keepRun_positional (g : Nat → List Char) (n : Nat) :
    (List.range n).filterMap (fun k =>
        if (k = 0 ∨ k = n - 1) ∧ (trim (g k)).length = 0 then none else some (g k)) =
      keepRun ((List.range n).map g) := by
  match n with
  | 0 => rfl
  | 1 =>
    show (List.filterMap _ [0]) = _
    rw [List.filterMap_cons]
    by_cases hb : (trim (g 0)).length = 0
    · rw [if_pos ⟨Or.inl rfl, hb⟩]
      show ([] : List (List Char)) = keepRun [g 0]
      rw [show keepRun [g 0] = if (trim (g 0)).length = 0 then [] else [g 0] from rfl,
        if_pos hb]
    · rw [if_neg (fun hc => hb hc.2)]
      show [g 0] = keepRun [g 0]
      rw [show keepRun [g 0] = if (trim (g 0)).length = 0 then [] else [g 0] from rfl,
        if_neg hb]
  | m + 2 =>
    rw [List.range_succ_eq_map, List.filterMap_cons, List.filterMap_map]
    have htail : ((fun k =>
        if (k = 0 ∨ k = m + 2 - 1) ∧ (trim (g k)).length = 0 then none else some (g k)) ∘
          Nat.succ) = (fun k =>
        if k = m + 1 - 1 ∧ (trim (g (k + 1))).length = 0 then none
        else some (g (k + 1))) := by
      funext k
      show (if (k + 1 = 0 ∨ k + 1 = m + 2 - 1) ∧ (trim (g (k + 1))).length = 0
        then none else some (g (k + 1))) = _
      by_cases hb : (trim (g (k + 1))).length = 0
      · by_cases hk : k = m
        · rw [if_pos ⟨Or.inr (by omega), hb⟩, if_pos ⟨by omega, hb⟩]
        · rw [if_neg (by intro hc; rcases hc.1 with h | h <;> omega),
            if_neg (by intro hc; omega)]
      · rw [if_neg (fun hc => hb hc.2), if_neg (fun hc => hb hc.2)]
    rw [htail, lastOnly_keepLast (fun k => g (k + 1)) (m + 1)]
    rw [List.map_cons, List.map_map,
      show (g ∘ Nat.succ) = (fun k => g (k + 1)) from rfl,
      keepRun_cons (g 0) ((List.range (m + 1)).map (fun k => g (k + 1))) (by simp)]
    by_cases hb : (trim (g 0)).length = 0
    · rw [if_pos ⟨Or.inl rfl, hb⟩, if_pos hb]
      rfl
    · rw [if_neg (fun hc => hb hc.2), if_neg hb]
      rfl

theorem dropIfBlankLast_cons (a : List Char) (t : List (List Char)) (h : t ≠ []) :
    dropIfBlankLast (a :: t) = a :: dropIfBlankLast t := by
  obtain ⟨c, rest, hrev⟩ : ∃ c rest, t.reverse = c :: rest := by
    cases htr : t.reverse with
    | nil => exact absurd (List.reverse_eq_nil_iff.mp htr) h
    | cons c rest => exact ⟨c, rest, rfl⟩
  unfold dropIfBlankLast
  rw [List.reverse_cons, hrev]
  show (dropIfBlankHead (c :: (rest ++ [a]))).reverse = _
  rw [show dropIfBlankHead (c :: (rest ++ [a])) =
      if (trim c).length = 0 then rest ++ [a] else c :: (rest ++ [a]) from rfl,
    show dropIfBlankHead (c :: rest) =
      if (trim c).length = 0 then rest else c :: rest from rfl]
  by_cases hb : (trim c).length = 0
  · rw [if_pos hb, if_pos hb, List.reverse_append]
    rfl
  · rw [if_neg hb, if_neg hb]
    rw [show (c :: (rest ++ [a])) = (c :: rest) ++ [a] from rfl, List.reverse_append]
    rfl

theorem keepLast_eq_dropIfBlankLast (t : List (List Char)) :
    keepLast t = dropIfBlankLast t := by
  induction t with
  | nil => rfl
  | cons a t' ih =>
    cases t' with
    | nil =>
      show (if (trim a).length = 0 then [] else [a]) = dropIfBlankLast [a]
      unfold dropIfBlankLast
      show _ = (dropIfBlankHead [a]).reverse
      rw [show dropIfBlankHead [a] = if (trim a).length = 0 then [] else [a] from rfl]
      by_cases hb : (trim a).length = 0
      · rw [if_pos hb]
        rfl
      · rw [if_neg hb]
        rfl
    | cons b zs =>
      rw [show keepLast (a :: b :: zs) = a :: keepLast (b :: zs) from rfl, ih,
        dropIfBlankLast_cons a (b :: zs) (by simp)]

theorem keepRun_eq_drops (ys : List (List Char)) :
    keepRun ys = dropIfBlankLast (dropIfBlankHead ys) := by
  cases ys with
  | nil => rfl
  | cons a t =>
    cases t with
    | nil =>
      rw [show dropIfBlankHead [a] = if (trim a).length = 0 then [] else [a] from rfl,
        show keepRun [a] = if (trim a).length = 0 then [] else [a] from rfl]
      by_cases hb : (trim a).length = 0
      · rw [if_pos hb]
        rfl
      · rw [if_neg hb, ← keepLast_eq_dropIfBlankLast]
        rw [show keepLast [a] = if (trim a).length = 0 then [] else [a] from rfl, if_neg hb]
    | cons b zs =>
      rw [show keepRun (a :: b :: zs) =
          (if (trim a).length = 0 then [] else [a]) ++ keepLast (b :: zs) from rfl,
        keepLast_eq_dropIfBlankLast,
        show dropIfBlankHead (a :: b :: zs) =
          if (trim a).length = 0 then b :: zs else a :: b :: zs from rfl]
      by_cases hb : (trim a).length = 0
      · rw [if_pos hb, if_pos hb]
        rfl
      · rw [if_neg hb, if_neg hb, dropIfBlankLast_cons a (b :: zs) (by simp)]
        rfl

theorem minFold_le_init (l : List (List Char)) (a : Int) :
    l.foldl (fun m x => min m (_calcWhitespaceIndent x)) a ≤ a := by
  induction l generalizing a with
  | nil => exact le_refl a
  | cons x t ih =>
    exact le_trans (ih (min a (_calcWhitespaceIndent x))) (min_le_left _ _)

theorem minFold_le_mem (l : List (List Char)) : ∀ (a : Int) (x : List Char), x ∈ l →
    l.foldl (fun m y => min m (_calcWhitespaceIndent y)) a ≤ _calcWhitespaceIndent x := by
  induction l with
  | nil =>
    intro a x hx
    cases hx
  | cons y t ih =>
    intro a x hx
    rcases List.mem_cons.mp hx with h | h
    · rw [h]
      exact le_trans (minFold_le_init t _) (min_le_right _ _)
    · exact ih _ x h

theorem minFold_nonneg (l : List (List Char)) (a : Int) (ha : 0 ≤ a) :
    0 ≤ l.foldl (fun m y => min m (_calcWhitespaceIndent y)) a := by
  induction l generalizing a with
  | nil => exact ha
  | cons y t ih =>
    refine ih _ (le_min ha ?_)
    unfold _calcWhitespaceIndent
    exact Int.ofNat_nonneg _

theorem appendUnindentted_drop (l : List Char) (m : Int) (h0 : 0 ≤ m)
    (hle : m ≤ _calcWhitespaceIndent l) :
    _appendUnindenttedLine l m = l.drop m.toNat := by
  unfold _appendUnindenttedLine
  simp only []
  rw [if_pos (show m ≥ 0 from h0)]
  by_cases hgt : _calcWhitespaceIndent l > m
  · rw [if_pos hgt]
  · rw [if_neg hgt]
    have heq : _calcWhitespaceIndent l = m := by omega
    rw [heq]

/-- C8: for every line-dialect token run, the ported extraction equals
the spec's description — strip each token's decoration, drop an
all-whitespace first or last line, subtract the minimum leading-space
indentation of the surviving lines uniformly from every surviving line,
join with one newline terminator per line, and return empty text when no
lines survive — provided every surviving line's indent is below the
source's `0x7fffffff` fold seed; and on the concrete run with indents 4,
2 and 6 the result is indented 2, 0 and 4. -/
theorem C8_line_extraction (ty : MarkupType) (toks : List Token) (s e : Nat)
    (hbound : ∀ l ∈ runSurvivors ty toks s e, _calcWhitespaceIndent l < 2147483647) :
    extractMarkupLineRun ty toks s e = extractLineRunSpec ty toks s e
  ∧ extractMarkupLineRun MarkupType.lineSlashBefore c8toks 0 3 =
      ("  a\nb\n    c\n").toList := by
  refine ⟨?_, by decide⟩
  unfold extractMarkupLineRun extractLineRunSpec
  simp only []
  have hlines : (List.range (e - s)).filterMap (fun k =>
      if (s + k = s ∨ s + k = e - 1) ∧
          (trim (removeStart ty (toks.getD (s + k) default).content)).length = 0
      then none else some (removeStart ty (toks.getD (s + k) default).content)) =
      runSurvivors ty toks s e := by
    rw [filterMapCongrMem _ _ (fun k =>
      if (k = 0 ∨ k = e - s - 1) ∧
          (trim (removeStart ty (toks.getD (s + k) default).content)).length = 0
      then none else some (removeStart ty (toks.getD (s + k) default).content)) ?hcong]
    case hcong =>
      intro k hk
      have hk' : k < e - s := List.mem_range.mp hk
      have hiff : ((s + k = s ∨ s + k = e - 1) ∧
          (trim (removeStart ty (toks.getD (s + k) default).content)).length = 0) ↔
          ((k = 0 ∨ k = e - s - 1) ∧
          (trim (removeStart ty (toks.getD (s + k) default).content)).length = 0) := by
        constructor
        · rintro ⟨h1, h2⟩
          exact ⟨by omega, h2⟩
        · rintro ⟨h1, h2⟩
          exact ⟨by omega, h2⟩
      rw [if_congr hiff rfl rfl]
    rw [keepRun_positional (fun k => removeStart ty (toks.getD (s + k) default).content)
      (e - s)]
    rw [keepRun_eq_drops]
    rfl
  rw [hlines]
  cases hsurv : runSurvivors ty toks s e with
  | nil => simp
  | cons l0 rest =>
    simp only [List.isEmpty_cons, List.map_cons, Bool.false_eq_true, if_false]
    have hb0 : _calcWhitespaceIndent l0 < 2147483647 :=
      hbound l0 (by rw [hsurv]; exact List.mem_cons_self l0 rest)
    have hstep : (fun (m : Int) (l : List Char) =>
        if _calcWhitespaceIndent l < m then _calcWhitespaceIndent l else m) =
        fun m l => min m (_calcWhitespaceIndent l) := by
      funext m l
      by_cases h : _calcWhitespaceIndent l < m
      · rw [if_pos h, min_eq_right (le_of_lt h)]
      · rw [if_neg h, min_eq_left (by omega)]
    have hfold : (l0 :: rest).foldl (fun (m : Int) (l : List Char) =>
        if _calcWhitespaceIndent l < m then _calcWhitespaceIndent l else m) 2147483647 =
        (rest.map (fun l => _calcWhitespaceIndent l)).foldl min (_calcWhitespaceIndent l0) := by
      rw [hstep, List.foldl_cons, min_eq_right (le_of_lt hb0), List.foldl_map]
    rw [hfold]
    have hM0 : 0 ≤ (rest.map (fun l => _calcWhitespaceIndent l)).foldl min
        (_calcWhitespaceIndent l0) := by
      rw [List.foldl_map]
      exact minFold_nonneg rest _ (Int.ofNat_nonneg _)
    have hMle : ∀ l ∈ l0 :: rest,
        (rest.map (fun l => _calcWhitespaceIndent l)).foldl min (_calcWhitespaceIndent l0) ≤
          _calcWhitespaceIndent l := by
      intro l hl
      rw [List.foldl_map]
      rcases List.mem_cons.mp hl with h | h
      · rw [h]
        exact minFold_le_init rest _
      · exact minFold_le_mem rest _ l h
    congr 1
    congr 1
    · rw [appendUnindentted_drop l0 _ hM0 (hMle l0 (List.mem_cons_self l0 rest))]
    · apply List.map_congr_left
      intro l hl
      rw [appendUnindentted_drop l _ hM0 (hMle l (List.mem_cons_of_mem l0 hl))]

/-- C8 witness: the refinement evaluated at the concrete run of three
`///` comments with decoration-stripped indents 4, 2 and 6. -/
theorem C8_witness :
    extractMarkupLineRun MarkupType.lineSlashBefore c8toks 0 3 =
      extractLineRunSpec MarkupType.lineSlashBefore c8toks 0 3
  ∧ extractMarkupLineRun MarkupType.lineSlashBefore c8toks 0 3 =
      ("  a\nb\n    c\n").toList :=
  C8_line_extraction MarkupType.lineSlashBefore c8toks 0 3 (by decide)

end SlangDoc
